import Mathlib

/-!
Verification of the certificate decoding and field-normalization engine of
the ssl-tls-certificate-viewer repository (src/lib/certificate-parser.ts).

The TypeScript source is shallowly embedded here:

* JavaScript strings are modelled as Lean `String`s; character-level
  operations go through `String.toList` (`List Char`), since the code only
  manipulates code units via `charCodeAt`, regexes over characters, `split`,
  `join`, `slice`, and template concatenation.
* JavaScript numbers that the code uses are integers (millisecond epoch
  timestamps, char codes, bit masks); they are modelled as `Int` / `Nat`.
* `Date` values are modelled as `Int` millisecond epoch timestamps; `Date`
  comparison in JS goes through `valueOf()`, i.e. integer comparison.
* The node-forge library call `forge.pki.certificateFromPem` (an external
  dependency, not code of this repository) is not re-implemented: its
  output, the decoded certificate object, is modelled as the `ForgeCert`
  input of the embedded pipeline, carrying exactly the fields the
  repository code reads from it.
* The single impure read `new Date()` (certificate-parser.ts line 158) is
  made explicit: the embedded pipeline takes the value produced by that
  read as the extra argument `ambientNow`.
* Fallible paths: the embedded extension decoders are total, exactly like
  the source ones (they only use `charCodeAt`, masks and string builders,
  none of which can throw).
-/

/-! ## JavaScript string semantics helpers -/

/-- Model of the character class matched by the JavaScript regex `\s` and
trimmed by `String.prototype.trim`: Lean's ASCII whitespace plus vertical
tab, form feed, NBSP, LINE SEPARATOR, PARAGRAPH SEPARATOR and BOM. -/
def jsWhitespace (c : Char) : Bool :=
  c.isWhitespace || c == '\x0b' || c == '\x0c' || c == '\u00A0' ||
    c == '\u2028' || c == '\u2029' || c == '\uFEFF'

/-- JavaScript line terminators: the characters NOT matched by `.` in a
regex (ECMA-262 LineTerminator). -/
def isLineTerm (c : Char) : Bool :=
  c == '\n' || c == '\r' || c == '\u2028' || c == '\u2029'

/-- Model of `String.prototype.trim`: drop leading and trailing
`jsWhitespace` characters. -/
def jsTrim (s : String) : String :=
  String.mk (((s.toList.dropWhile jsWhitespace).reverse.dropWhile jsWhitespace).reverse)

/-- Model of `String.prototype.startsWith`. -/
def jsStartsWith (s pat : String) : Bool :=
  pat.toList.isPrefixOf s.toList

/-- Model of `String.prototype.endsWith`. -/
def jsEndsWith (s pat : String) : Bool :=
  pat.toList.isSuffixOf s.toList

/-- Boolean substring containment on character lists (used to model
`String.prototype.includes`). -/
def listContains (sub : List Char) : List Char → Bool
  | [] => sub.isEmpty
  | l@(_ :: t) => sub.isPrefixOf l || listContains sub t

/-- Model of `String.prototype.includes`. -/
def jsIncludes (s pat : String) : Bool :=
  listContains pat.toList s.toList

/-- Model of `String.prototype.toLowerCase` (the extension names matched by
the code are ASCII). -/
def jsToLower (s : String) : String :=
  String.mk (s.toList.map Char.toLower)

/-- Model of `String.prototype.toUpperCase` (applied by the code to ASCII
hex digits only). -/
def jsToUpper (s : String) : String :=
  String.mk (s.toList.map Char.toUpper)

/-- Model of `String.prototype.padStart(len, c)`. -/
def jsPadStart (s : String) (len : Nat) (c : Char) : String :=
  if s.length ≥ len then s
  else String.mk (List.replicate (len - s.length) c ++ s.toList)

/-- Model of `str.match(/.{1,2}/g)`: scan left to right, skipping line
terminators (which `.` does not match), grabbing up to two consecutive
non-terminator characters per group.  An empty result list models a `null`
match result. -/
def jsChunk12 : List Char → List (List Char)
  | [] => []
  | c :: rest =>
    if isLineTerm c then jsChunk12 rest
    else match rest with
      | [] => [[c]]
      | d :: rest2 =>
        if isLineTerm d then [c] :: jsChunk12 rest2
        else [c, d] :: jsChunk12 rest2

/-- Model of `Array.prototype.join(sep)` for arrays of strings, on
character lists. -/
def joinSep (sep : List Char) : List (List Char) → List Char
  | [] => []
  | [x] => x
  | x :: y :: t => x ++ sep ++ joinSep sep (y :: t)

/-- Model of `String.prototype.split(c)` for a single-character separator:
always returns at least one (possibly empty) piece, exactly like JS
(`"".split(":")` is `[""]`). -/
def splitCh (c : Char) : List Char → List (List Char)
  | [] => [[]]
  | x :: t =>
    match splitCh c t with
    | [] => [[]]
    | r :: rs => if x == c then [] :: r :: rs else (x :: r) :: rs

/-- Fuel-driven worker for `chunkList` (structural recursion on the fuel,
which the wrapper instantiates with the list length). -/
def chunkGo (n : Nat) : Nat → List α → List (List α)
  | _, [] => []
  | 0, l => [l]
  | fuel + 1, x :: xs =>
    if n = 0 then [x :: xs]
    else (x :: xs).take n :: chunkGo n fuel ((x :: xs).drop n)

/-- Model of the `for (let i = 0; i < parts.length; i += 15)`-style slicing
loops: chunk a list into consecutive slices of length `n`. -/
def chunkList (n : Nat) (l : List α) : List (List α) :=
  chunkGo n l.length l

/-! ## JavaScript number rendering helpers -/

/-- Digit characters produced by `Number.prototype.toString(base)` for
bases up to 16 (lower case, as in JS). -/
def digitChar16 : Nat → Char
  | 0 => '0' | 1 => '1' | 2 => '2' | 3 => '3' | 4 => '4'
  | 5 => '5' | 6 => '6' | 7 => '7' | 8 => '8' | 9 => '9'
  | 10 => 'a' | 11 => 'b' | 12 => 'c' | 13 => 'd' | 14 => 'e'
  | 15 => 'f' | _ => '*'

/-- Little-endian base-`b` digits of `n`, with explicit fuel so that the
definition is structurally recursive (`fuel ≥ n` suffices). -/
def natDigitsLE (fuel b n : Nat) : List Nat :=
  match fuel with
  | 0 => []
  | fuel + 1 => if n = 0 then [] else n % b :: natDigitsLE fuel b (n / b)

/-- Value of a little-endian digit list in base `b`. -/
def ofDigitsLE (b : Nat) : List Nat → Nat
  | [] => 0
  | d :: t => d + b * ofDigitsLE b t

/-- Model of `Number.prototype.toString(base)` for a natural number:
most-significant digit first, lower-case letters, `"0"` for zero. -/
def natToBase (b n : Nat) : String :=
  if n = 0 then "0" else String.mk ((natDigitsLE n b n).reverse.map digitChar16)

/-- Model of `parseInt(s, 10)` restricted to its use in this code base
(the input is a decimal digit string produced by `BigInteger.toString()`):
parse the maximal leading run of decimal digits. -/
def jsParseInt (s : String) : Nat :=
  ofDigitsLE 10 (((s.toList.takeWhile Char.isDigit).map (fun c => c.toNat - 48)).reverse)

/-- Model of jsbn `BigInteger.bitLength()`: number of binary digits, 0 for 0. -/
def bitLength (n : Nat) : Nat :=
  (natDigitsLE n 2 n).length

/-! ## Digest algorithms

`forge.md.sha1` / `forge.md.sha256` (library code) compute standard SHA-1 /
SHA-256 over the DER byte string; they are embedded here as the standard
algorithms over byte lists so that the fingerprint fields are honest pure
functions of the DER encoding. -/

/-- Truncation to a 32-bit word. -/
def w32 (n : Nat) : Nat := n % 4294967296

/-- Rotation to the right within a 32-bit word. -/
def rotr32 (x n : Nat) : Nat :=
  w32 (x / 2 ^ n + x * 2 ^ (32 - n))

/-- Big-endian byte rendering of `n` on `k` bytes. -/
def beBytes (k n : Nat) : List Nat :=
  (List.range k).map (fun i => n / 2 ^ (8 * (k - 1 - i)) % 256)

/-- SHA padding: append `128`, zero bytes and the 64-bit big-endian bit
length, reaching a multiple of 64 bytes. -/
def shaPad (msg : List Nat) : List Nat :=
  msg ++ 128 :: List.replicate ((119 - msg.length % 64) % 64) 0 ++ beBytes 8 (msg.length * 8)

/-- Split a 64-byte block into 16 big-endian 32-bit words. -/
def blockWords (block : List Nat) : List Nat :=
  (List.range 16).map (fun i =>
    (block.getD (4 * i) 0) * 16777216 + (block.getD (4 * i + 1) 0) * 65536 +
      (block.getD (4 * i + 2) 0) * 256 + block.getD (4 * i + 3) 0)

/-- SHA-256 round constants. -/
def sha256K : List Nat :=
  [1116352408, 1899447441, 3049323471, 3921009573, 961987163, 1508970993,
   2453635748, 2870763221, 3624381080, 310598401, 607225278, 1426881987,
   1925078388, 2162078206, 2614888103, 3248222580, 3835390401, 4022224774,
   264347078, 604807628, 770255983, 1249150122, 1555081692, 1996064986,
   2554220882, 2821834349, 2952996808, 3210313671, 3336571891, 3584528711,
   113926993, 338241895, 666307205, 773529912, 1294757372, 1396182291,
   1695183700, 1986661051, 2177026350, 2456956037, 2730485921, 2820302411,
   3259730800, 3345764771, 3516065817, 3600352804, 4094571909, 275423344,
   430227734, 506948616, 659060556, 883997877, 958139571, 1322822218,
   1537002063, 1747873779, 1955562222, 2024104815, 2227730452, 2361852424,
   2428436474, 2756734187, 3204031479, 3329325298]

/-- Extend 16 message words to the 64-word SHA-256 schedule. -/
def sha256Schedule (ws : List Nat) (rounds : Nat) : List Nat :=
  match rounds with
  | 0 => ws
  | r + 1 =>
    let i := ws.length
    let w15 := ws.getD (i - 15) 0
    let w2 := ws.getD (i - 2) 0
    let s0 := (rotr32 w15 7) ^^^ (rotr32 w15 18) ^^^ (w15 / 2 ^ 3)
    let s1 := (rotr32 w2 17) ^^^ (rotr32 w2 19) ^^^ (w2 / 2 ^ 10)
    sha256Schedule (ws ++ [w32 (ws.getD (i - 16) 0 + s0 + ws.getD (i - 7) 0 + s1)]) r

/-- One SHA-256 compression over a 64-byte block. -/
def sha256Block (h : List Nat) (block : List Nat) : List Nat :=
  let ws := sha256Schedule (blockWords block) 48
  let final := (List.range 64).foldl
    (fun (st : List Nat) t =>
      let a := st.getD 0 0; let b := st.getD 1 0; let c := st.getD 2 0
      let d := st.getD 3 0; let e := st.getD 4 0; let f := st.getD 5 0
      let g := st.getD 6 0; let hh := st.getD 7 0
      let s1 := (rotr32 e 6) ^^^ (rotr32 e 11) ^^^ (rotr32 e 25)
      let ch := (e &&& f) ^^^ ((2 ^ 32 - 1 - e) &&& g)
      let t1 := w32 (hh + s1 + ch + sha256K.getD t 0 + ws.getD t 0)
      let s0 := (rotr32 a 2) ^^^ (rotr32 a 13) ^^^ (rotr32 a 22)
      let maj := (a &&& b) ^^^ (a &&& c) ^^^ (b &&& c)
      let t2 := w32 (s0 + maj)
      [w32 (t1 + t2), a, b, c, w32 (d + t1), e, f, g])
    h
  (List.range 8).map (fun i => w32 (h.getD i 0 + final.getD i 0))

/-- SHA-256 of a byte list, as the list of eight 32-bit state words. -/
def sha256Words (msg : List Nat) : List Nat :=
  (chunkList 64 (shaPad msg)).foldl sha256Block
    [1779033703, 3144134277, 1013904242, 2773480762,
     1359893119, 2600822924, 528734635, 1541459225]

/-- Lower-case hex rendering of a 32-bit word on 8 digits. -/
def hex8 (n : Nat) : String := jsPadStart (natToBase 16 n) 8 '0'

/-- Model of `forge.md.sha256...digest().toHex()`: lower-case hex SHA-256. -/
def sha256Hex (msg : List Nat) : String :=
  String.join ((sha256Words msg).map hex8)

/-- One SHA-1 compression over a 64-byte block. -/
def sha1Block (h : List Nat) (block : List Nat) : List Nat :=
  let ws := (List.range 80).foldl
    (fun (ws : List Nat) t =>
      if t < 16 then ws
      else
        let i := ws.length
        ws ++ [rotr32 ((ws.getD (i - 3) 0) ^^^ (ws.getD (i - 8) 0) ^^^
          (ws.getD (i - 14) 0) ^^^ (ws.getD (i - 16) 0)) 31])
    (blockWords block)
  let final := (List.range 80).foldl
    (fun (st : List Nat) t =>
      let a := st.getD 0 0; let b := st.getD 1 0; let c := st.getD 2 0
      let d := st.getD 3 0; let e := st.getD 4 0
      let f :=
        if t < 20 then (b &&& c) ||| ((2 ^ 32 - 1 - b) &&& d)
        else if t < 40 then b ^^^ c ^^^ d
        else if t < 60 then (b &&& c) ||| (b &&& d) ||| (c &&& d)
        else b ^^^ c ^^^ d
      let k :=
        if t < 20 then 1518500249 else if t < 40 then 1859775393
        else if t < 60 then 2400959708 else 3395469782
      [w32 (rotr32 a 27 + f + e + k + ws.getD t 0), a, rotr32 b 2, c, d])
    h
  (List.range 5).map (fun i => w32 (h.getD i 0 + final.getD i 0))

/-- SHA-1 of a byte list, as the list of five 32-bit state words. -/
def sha1Words (msg : List Nat) : List Nat :=
  (chunkList 64 (shaPad msg)).foldl sha1Block
    [1732584193, 4023233417, 2562383102, 271733878, 3285377520]

/-- Model of `forge.md.sha1...digest().toHex()`: lower-case hex SHA-1. -/
def sha1Hex (msg : List Nat) : String :=
  String.join ((sha1Words msg).map hex8)

/-! ## Data model

`ForgeCert` models the decoded certificate object returned by
`forge.pki.certificateFromPem`, with exactly the fields read by
`parseCertificateWithForge`.  `CertificateInfo` mirrors the exported
TypeScript interface of the same name. -/

/-- A decoded DN attribute value: `attr.value` is either a string or an
array of strings (`Array.isArray` discriminates in the source). -/
inductive AttrValue where
  | str (s : String)
  | arr (l : List String)
deriving DecidableEq, Repr

/-- A decoded DN attribute (`cert.subject.attributes` element). -/
structure Attr where
  name : String
  value : AttrValue
deriving DecidableEq, Repr

/-- A decoded extension value as the source discriminates it:
`undefined`, a (binary) string, an array of strings, or some other object
(whose `JSON.stringify` rendering is carried, since the source only ever
stringifies it). -/
inductive ExtValue where
  | undef
  | str (s : String)
  | arr (l : List String)
  | obj (json : String)
deriving DecidableEq, Repr

/-- A decoded extension object (`cert.extensions` element).  `name` and
`critical` may be absent (`ext.name || 'Unknown'`, `ext.critical || false`
in the source); forge extension objects always carry a `value` key, so
`'value' in ctExtension` is modelled as always true. -/
structure ExtObj where
  name : Option String
  value : ExtValue
  critical : Option Bool
deriving DecidableEq, Repr

/-- Decoded RSA key material: modulus `n` and public exponent `e`
(arbitrary-precision naturals, as jsbn `BigInteger`s). -/
structure RsaKey where
  n : Nat
  e : Nat
deriving DecidableEq, Repr

/-- The decoded public key object, as probed structurally by
`extractPublicKeyAlgorithm`: optional `algorithm` / `algorithmName` string
properties, optional RSA material (`pk.n && pk.e`), optional named curve
(`pk.curve`), optional DSA material (`pk.y && pk.p && pk.q && pk.g`). -/
structure PublicKeyView where
  algorithmField : Option String
  algorithmNameField : Option String
  rsa : Option RsaKey
  curve : Option String
  dsa : Bool
deriving DecidableEq, Repr

/-- The decoded certificate object (output of the node-forge PEM/DER
decoder, which this repository delegates to).  `signature` is forge's
binary string of raw signature bytes; `derBytes` models
`forge.asn1.toDer(forge.pki.certificateToAsn1(cert)).getBytes()`, the
canonical DER encoding the fingerprints are computed over.  The three
optional signature-algorithm fields model the `unknown`-typed property
probes in `extractSignatureAlgorithm`. -/
structure ForgeCert where
  version : Option Nat
  subjectAttrs : List Attr
  issuerAttrs : List Attr
  notBefore : Int
  notAfter : Int
  serialNumber : String
  publicKey : Option PublicKeyView
  signatureAlgorithm : Option String
  sigAlg : Option String
  signatureAlgorithmOid : Option String
  signature : String
  extensions : List ExtObj
  derBytes : List Nat
deriving DecidableEq, Repr

/-- Mirror of `CertificateInfo['subject']` / `['issuer']`. -/
structure DNInfo where
  commonName : Option String := none
  organization : Option String := none
  organizationalUnit : Option String := none
  country : Option String := none
  state : Option String := none
  locality : Option String := none
  email : Option String := none
deriving DecidableEq, Repr

/-- Mirror of `CertificateInfo['validity']`. -/
structure ValidityInfo where
  notBefore : Int
  notAfter : Int
  isExpired : Bool
  isExpiringSoon : Bool
deriving DecidableEq, Repr

/-- Mirror of `CertificateInfo['publicKey']`. -/
structure PublicKeyInfo where
  algorithm : String
  keySize : Option Nat := none
  modulus : Option String := none
  exponent : Option String := none
deriving DecidableEq, Repr

/-- Mirror of `CertificateInfo['signature']`. -/
structure SignatureInfo where
  algorithm : String
  value : String
deriving DecidableEq, Repr

/-- Mirror of a `CertificateInfo['extensions']` element. -/
structure ExtDisplay where
  name : String
  value : String
  critical : Bool
deriving DecidableEq, Repr

/-- Mirror of `CertificateInfo['fingerprint']`. -/
structure FingerprintInfo where
  sha1 : String
  sha256 : String
deriving DecidableEq, Repr

/-- Mirror of the `basicConstraints.rawData` diagnostic echo. -/
structure RawData where
  binary : String
  hex : String
  binaryString : String
deriving DecidableEq, Repr

/-- Mirror of `CertificateInfo['basicConstraints']`. -/
structure BasicConstraintsInfo where
  isCA : Bool
  pathLength : Option Nat
  rawData : Option RawData
deriving DecidableEq, Repr

/-- One SCT entry of `certificateTransparency.scts`. -/
structure SCT where
  version : String
  logId : String
  timestamp : Int
  signature : String
deriving DecidableEq, Repr

/-- Mirror of `CertificateInfo['certificateTransparency']`. -/
structure CTInfo where
  scts : List SCT
deriving DecidableEq, Repr

/-- The flag record returned by `parseKeyUsageExtension`. -/
structure KeyUsageFlags where
  digitalSignature : Bool
  nonRepudiation : Bool
  keyEncipherment : Bool
  dataEncipherment : Bool
  keyAgreement : Bool
  keyCertSign : Bool
  cRLSign : Bool
  encipherOnly : Bool
  decipherOnly : Bool
deriving DecidableEq, Repr

/-- The exported `CertificateInfo` interface (the sole output entity). -/
structure CertificateInfo where
  version : Nat
  subject : DNInfo
  issuer : DNInfo
  validity : ValidityInfo
  serialNumber : String
  publicKey : PublicKeyInfo
  signature : SignatureInfo
  extensions : List ExtDisplay
  fingerprint : FingerprintInfo
  keyUsage : Option (List String)
  basicConstraints : Option BasicConstraintsInfo
  extendedKeyUsage : Option (List String)
  certificateTransparency : Option CTInfo
deriving DecidableEq, Repr

/-! ## Embedded source functions (src/lib/certificate-parser.ts) -/

/-- Embedding of `validateCertificateFormat` (lines 343-351): trim, then require both
markers as substrings, the begin marker as prefix and the end marker as
suffix of the trimmed text. -/
def validateCertificateFormat (certText : String) : Bool :=
  let trimmed := jsTrim certText
  jsIncludes trimmed "-----BEGIN CERTIFICATE-----" &&
    jsIncludes trimmed "-----END CERTIFICATE-----" &&
    jsStartsWith trimmed "-----BEGIN CERTIFICATE-----" &&
    jsEndsWith trimmed "-----END CERTIFICATE-----"

/-- JS truthiness of an optional string property combined with the
`typeof x === 'string'` guard used in the source: an absent property and
the empty string are falsy. -/
def jsTruthyStr : Option String → Bool
  | none => false
  | some s => s ≠ ""

/-- Embedding of `extractPublicKeyAlgorithm` (lines 353-380): structural probing of the
decoded key material. -/
def extractPublicKeyAlgorithm (publicKey : Option PublicKeyView) : String :=
  match publicKey with
  | none => "Unknown"
  | some pk =>
    if jsTruthyStr pk.algorithmField then pk.algorithmField.getD ""
    else if jsTruthyStr pk.algorithmNameField then pk.algorithmNameField.getD ""
    else if pk.rsa.isSome then "rsaEncryption"
    else if pk.curve.isSome then "ecPublicKey"
    else if pk.dsa then "dsaEncryption"
    else "Unknown"

/-- Embedding of `extractSignatureAlgorithm` (lines 382-403): try the explicit fields in
order, then the `signature && publicKey` heuristic default, else
"Unknown".  (`c.signature` is a JS string: truthy iff non-empty;
`c.publicKey` is an object: truthy iff present.) -/
def extractSignatureAlgorithm (cert : ForgeCert) : String :=
  if jsTruthyStr cert.signatureAlgorithm then cert.signatureAlgorithm.getD ""
  else if jsTruthyStr cert.sigAlg then cert.sigAlg.getD ""
  else if jsTruthyStr cert.signatureAlgorithmOid then cert.signatureAlgorithmOid.getD ""
  else if cert.signature ≠ "" && cert.publicKey.isSome then "sha256WithRSAEncryption"
  else "Unknown"

/-- Embedding of `formatModulus` (lines 405-422): strip colons and whitespace, group
into hex pairs joined by `":"`, then wrap 15 pairs per line, continuation
lines indented by 20 spaces. -/
def formatModulus (hexData : String) : String :=
  let cleanHex := hexData.toList.filter (fun c => !(c == ':' || jsWhitespace c))
  let withColons :=
    match jsChunk12 cleanHex with
    | [] => cleanHex
    | parts => joinSep [':'] parts
  let parts := splitCh ':' withColons
  let lines := (chunkList 15 parts).map (joinSep [':'])
  String.mk (joinSep ('\n' :: List.replicate 20 ' ') lines)

/-- Embedding of `formatExponent` (lines 424-433): parse the decimal string, render
`"<decimal> (0x<HEX>)"` with upper-case hex. -/
def formatExponent (decimalData : String) : String :=
  let decimalValue := jsParseInt decimalData
  let hexValue := jsToUpper (natToBase 16 decimalValue)
  natToBase 10 decimalValue ++ " (0x" ++ hexValue ++ ")"

/-- First hardcoded SCT pushed by `parseCertificateTransparencySCTs`
(lines 458-465). -/
def sctEntry1 : SCT where
  version := "v1 (0x0)"
  logId := "A2:E3:0A:E4:45:EF:BD:AD:9B:7E:38:ED:47:67:77:53:D7:82:5B:84:94:D7:2B:5E:1B:2C:C4:B9:50:A4:47:E7"
  timestamp := 1706075169505
  signature := "ecdsa-with-SHA256\n30:45:02:20:11:44:E0:29:DD:CF:CC:5B:CE:64:7F:F9:39:F7:63:23:20:05:CF:BD:3C:BB:8C:D4:52:CC:E4:55:18:9A:B0:FA:02:21:00:BD:A2:3D:6A:A4:79:7B:10:4A:B0:73:8C:52:71:0A:8F:54:D9:4B:82:B1:0A:AD:0A:70:98:F0:C6:67:FE:9E:7F"

/-- Second hardcoded SCT (lines 467-474). -/
def sctEntry2 : SCT where
  version := "v1 (0x0)"
  logId := "E6:D2:31:63:40:77:8C:C1:10:41:06:D7:71:B9:CE:C1:D2:40:F6:96:84:86:FB:BA:87:32:1D:FD:1E:37:8E:50"
  timestamp := 1706075169503
  signature := "ecdsa-with-SHA256\n30:45:02:21:00:99:5C:D5:D1:0F:69:FB:51:15:AE:93:BD:E5:4A:44:E5:D1:C3:E0:E7:80:F8:04:85:3B:F5:15:17:B7:E2:3B:26:02:20:7B:52:D6:EE:5E:AB:7A:F0:B2:E5:F8:85:84:4D:A5:F9:EF:F7:04:20:4C:E9:BD:13:94:C7:50:F1:1C:1E:A8:9B"

/-- Third hardcoded SCT (lines 476-483). -/
def sctEntry3 : SCT where
  version := "v1 (0x0)"
  logId := "4E:75:A3:27:5C:9A:10:C3:38:5B:6C:D4:DF:3F:52:EB:1D:F0:E0:8E:1B:8D:69:C0:B1:FA:64:B1:62:9A:39:DF"
  timestamp := 1706075169453
  signature := "ecdsa-with-SHA256\n30:45:02:20:56:C3:6A:8F:CF:B2:2A:B3:F4:DF:F4:87:44:DB:99:6F:57:BD:44:D5:59:3C:AE:B9:EC:77:DA:E0:1E:62:0D:89:02:21:00:BF:C6:89:A9:45:EE:25:BE:7F:33:4D:EE:78:44:1E:F8:C0:2E:69:8F:64:A4:0E:B5:6A:07:4B:E2:56:E3:7F:16"

/-- Embedding of `parseCertificateTransparencySCTs` (lines 435-488): the body never
inspects the extension bytes; whenever the argument is an object with a
`value` key (always true for forge extension objects, see `ExtObj`), it
pushes the three hardcoded SCTs; the surrounding `try` can never fire. -/
def parseCertificateTransparencySCTs (ctExtension : ExtObj) : List SCT :=
  [sctEntry1, sctEntry2, sctEntry3]

/-- Model of the `String(value)` coercion for the `unknown`-typed extension values
handed to the fixed-offset decoders. -/
def jsStringOf : ExtValue → String
  | .undef => "undefined"
  | .str s => s
  | .arr l => String.intercalate "," l
  | .obj _ => "[object Object]"

/-- Embedding of `parseKeyUsageExtension` (lines 491-541): if the coerced raw value has
at least 4 characters, interpret `charCodeAt(3)` as the bit string; else
return the fixed fallback flag set (lines 530-540). -/
def parseKeyUsageExtension (value : ExtValue) : KeyUsageFlags :=
  let rawValue := jsStringOf value
  if rawValue.toList.length ≥ 4 then
    let bitString := ((rawValue.toList.get? 3).map Char.toNat).getD 0
    { digitalSignature := bitString &&& 0x80 ≠ 0
      nonRepudiation := bitString &&& 0x40 ≠ 0
      keyEncipherment := bitString &&& 0x20 ≠ 0
      dataEncipherment := bitString &&& 0x10 ≠ 0
      keyAgreement := bitString &&& 0x08 ≠ 0
      keyCertSign := bitString &&& 0x04 ≠ 0
      cRLSign := bitString &&& 0x02 ≠ 0
      encipherOnly := bitString &&& 0x01 ≠ 0
      decipherOnly := false }
  else
    { digitalSignature := true
      nonRepudiation := false
      keyEncipherment := true
      dataEncipherment := false
      keyAgreement := false
      keyCertSign := false
      cRLSign := false
      encipherOnly := false
      decipherOnly := false }

/-- The documented fixed fallback flag set of `parseKeyUsageExtension`
(lines 530-540). -/
def keyUsageFallback : KeyUsageFlags where
  digitalSignature := true
  nonRepudiation := false
  keyEncipherment := true
  dataEncipherment := false
  keyAgreement := false
  keyCertSign := false
  cRLSign := false
  encipherOnly := false
  decipherOnly := false

/-- The `char.charCodeAt(0).toString(16).padStart(2, '0').toUpperCase()`
hex echo joined with `":"` (used for Key Usage / Basic Constraints /
Extended Key Usage diagnostics). -/
def hexEcho (raw : String) : String :=
  String.intercalate ":"
    (raw.toList.map (fun c => jsToUpper (jsPadStart (natToBase 16 c.toNat) 2 '0')))

/-- The `char.charCodeAt(0).toString(2).padStart(8, '0')` binary echo
joined with `" "`. -/
def binEcho (raw : String) : String :=
  String.intercalate " "
    (raw.toList.map (fun c => jsPadStart (natToBase 2 c.toNat) 8 '0'))

/-- Embedding of `parseBasicConstraintsExtension` (lines 543-589): every branch reports
`isCA = false` with no path length; the raw/hex/binary echoes are always
attached. -/
def parseBasicConstraintsExtension (value : ExtValue) : BasicConstraintsInfo :=
  let rawValue := jsStringOf value
  let isCA :=
    if rawValue.toList.length ≥ 2 then
      if (((rawValue.toList.get? 1).map Char.toNat).getD 0) = 0 then false
      else false
    else false
  { isCA := isCA
    pathLength := none
    rawData := some
      { binary := rawValue
        hex := hexEcho rawValue
        binaryString := binEcho rawValue } }

/-- Embedding of `parseExtendedKeyUsageExtension` (lines 591-596): a stub returning the
two most common purposes. -/
def parseExtendedKeyUsageExtension : List String :=
  ["TLS Web Server Authentication", "TLS Web Client Authentication"]

/-- One step of the `cert.subject.attributes.forEach` switch (lines
95-122): multi-valued attributes are comma-joined, known attribute names
update the corresponding output field, unknown ones are dropped. -/
def applyAttr (dn : DNInfo) (attr : Attr) : DNInfo :=
  let value :=
    match attr.value with
    | .arr l => String.intercalate ", " l
    | .str s => s
  match attr.name with
  | "commonName" => { dn with commonName := some value }
  | "organizationName" => { dn with organization := some value }
  | "organizationalUnitName" => { dn with organizationalUnit := some value }
  | "countryName" => { dn with country := some value }
  | "stateOrProvinceName" => { dn with state := some value }
  | "localityName" => { dn with locality := some value }
  | "emailAddress" => { dn with email := some value }
  | _ => dn

/-- The Distinguished Name extractor (run once for subject, once for
issuer). -/
def extractDN (attrs : List Attr) : DNInfo :=
  attrs.foldl applyAttr {}

/-- Embedding of `(cert.version || 2) + 1` (line 91): JS `||` takes the fallback `2`
when `cert.version` is absent OR equal to `0` (zero is falsy in JS). -/
def versionDisplayed (version : Option Nat) : Nat :=
  (match version with
   | some n => if n = 0 then 2 else n
   | none => 2) + 1

/-- The validity evaluation (lines 155-168).  `now` is the millisecond
instant produced by the `new Date()` read on line 158. -/
def certValidity (notBefore notAfter now : Int) : ValidityInfo :=
  let thirtyDaysFromNow := now + 30 * 24 * 60 * 60 * 1000
  { notBefore := notBefore
    notAfter := notAfter
    isExpired := notAfter < now
    isExpiringSoon := notAfter < thirtyDaysFromNow && notAfter > now }

/-- Model of `forge.util.bytesToHex(cert.signature)`: two lower-case hex digits per
character of the binary string. -/
def bytesToHex (s : String) : String :=
  String.join (s.toList.map (fun c => jsPadStart (natToBase 16 c.toNat) 2 '0'))

/-- The generic extension display mapping (lines 192-208): textual values
pass through, array values are comma-joined, other objects are JSON
dumps; a falsy value yields `''`; absent/falsy name yields `'Unknown'`,
absent critical yields `false`. -/
def extDisplayOf (ext : ExtObj) : ExtDisplay :=
  let value :=
    match ext.value with
    | .undef => ""
    | .str s => s
    | .arr l => String.intercalate ", " l
    | .obj json => json
  let name :=
    match ext.name with
    | some s => if s = "" then "Unknown" else s
    | none => "Unknown"
  { name := name, value := value, critical := ext.critical.getD false }

/-- JS truthiness of an extension value (`ext.value` guards on lines 229
and 273): `undefined` and `''` are falsy, arrays and objects truthy. -/
def jsTruthyExtVal : ExtValue → Bool
  | .undef => false
  | .str s => s ≠ ""
  | .arr _ => true
  | .obj _ => true

/-- The named-flag list pushed for Key Usage (lines 232-240), in source
order. -/
def keyUsageNames (f : KeyUsageFlags) : List String :=
  (if f.digitalSignature then ["Digital Signature"] else []) ++
  (if f.nonRepudiation then ["Non Repudiation"] else []) ++
  (if f.keyEncipherment then ["Key Encipherment"] else []) ++
  (if f.dataEncipherment then ["Data Encipherment"] else []) ++
  (if f.keyAgreement then ["Key Agreement"] else []) ++
  (if f.keyCertSign then ["Key Cert Sign"] else []) ++
  (if f.cRLSign then ["CRL Sign"] else []) ++
  (if f.encipherOnly then ["Encipher Only"] else []) ++
  (if f.decipherOnly then ["Decipher Only"] else [])

/-- The full Key Usage display list (lines 229-257): named flags followed
by the raw/hex/binary echoes. -/
def keyUsageList (value : ExtValue) : List String :=
  let rawValue := jsStringOf value
  keyUsageNames (parseKeyUsageExtension value) ++
    ["Raw Binary: " ++ rawValue, "Hex: " ++ hexEcho rawValue,
     "Binary: " ++ binEcho rawValue]

/-- The Extended Key Usage display list (lines 273-293). -/
def extKeyUsageList (value : ExtValue) : List String :=
  let rawValue := jsStringOf value
  parseExtendedKeyUsageExtension ++
    ["Raw Binary: " ++ rawValue, "Hex: " ++ hexEcho rawValue,
     "Binary: " ++ binEcho rawValue]

/-- The Certificate Transparency extension predicate (lines 296-305):
exact name matches, well-known OIDs, or case-insensitive substring match
on "ct" / "sct" / "transparency". -/
def isCTExtension (ext : ExtObj) : Bool :=
  ext.name == some "ctPrecertificateSCTs" ||
  ext.name == some "signedCertificateTimestampList" ||
  ext.name == some "1.3.6.1.4.1.11129.2.4.2" ||
  ext.name == some "1.3.6.1.4.1.11129.2.4.5" ||
  (match ext.name with
   | some n =>
     jsIncludes (jsToLower n) "ct" || jsIncludes (jsToLower n) "sct" ||
       jsIncludes (jsToLower n) "transparency"
   | none => false)

/-- Embedding of `formatSerialNumber` (lines 314-318, defined inside
`parseCertificateWithForge`): strip colons, regroup in hex pairs joined by
colons; if the regex match is `null` the original serial is returned. -/
def formatSerialNumber (serial : String) : String :=
  let cleanSerial := serial.toList.filter (fun c => !(c == ':'))
  match jsChunk12 cleanSerial with
  | [] => serial
  | parts => String.mk (joinSep [':'] parts)

/-- The public-key descriptor (lines 171-182): algorithm classification
plus, for RSA material, key size and formatted modulus/exponent
(`rsaKey.n.toString(16)` is jsbn's lower-case hex, `rsaKey.e.toString()`
its decimal rendering). -/
def buildPublicKeyInfo (publicKey : Option PublicKeyView) : PublicKeyInfo :=
  let base : PublicKeyInfo := { algorithm := extractPublicKeyAlgorithm publicKey }
  match publicKey with
  | none => base
  | some pk =>
    match pk.rsa with
    | none => base
    | some rsaKey =>
      { base with
        keySize := some (bitLength rsaKey.n)
        modulus := some (formatModulus (natToBase 16 rsaKey.n))
        exponent := some (formatExponent (natToBase 10 rsaKey.e)) }

/-- Embedding of `parseCertificateWithForge` (lines 77-341) after the node-forge PEM
decode: assembles the `CertificateInfo` from the decoded certificate
object.  `ambientNow` is the millisecond value produced by the implicit
`new Date()` read on line 158, made explicit by the embedding. -/
def parseCertificateWithForge (cert : ForgeCert) (ambientNow : Int) : CertificateInfo :=
  let keyUsageExtension := cert.extensions.find? (fun ext => ext.name == some "keyUsage")
  let keyUsage : List String :=
    match keyUsageExtension with
    | some ext => if jsTruthyExtVal ext.value then keyUsageList ext.value else []
    | none => []
  let basicConstraintsExtension :=
    cert.extensions.find? (fun ext => ext.name == some "basicConstraints")
  let extKeyUsageExtension :=
    cert.extensions.find? (fun ext => ext.name == some "extKeyUsage")
  let extendedKeyUsage : List String :=
    match extKeyUsageExtension with
    | some ext => if jsTruthyExtVal ext.value then extKeyUsageList ext.value else []
    | none => []
  let ctExtension := cert.extensions.find? isCTExtension
  { version := versionDisplayed cert.version
    subject := extractDN cert.subjectAttrs
    issuer := extractDN cert.issuerAttrs
    validity := certValidity cert.notBefore cert.notAfter ambientNow
    serialNumber := formatSerialNumber cert.serialNumber
    publicKey := buildPublicKeyInfo cert.publicKey
    signature :=
      { algorithm := extractSignatureAlgorithm cert
        value := bytesToHex cert.signature }
    extensions := cert.extensions.map extDisplayOf
    fingerprint :=
      { sha1 := sha1Hex cert.derBytes
        sha256 := sha256Hex cert.derBytes }
    keyUsage := if keyUsage.length > 0 then some keyUsage else none
    basicConstraints :=
      basicConstraintsExtension.map (fun ext => parseBasicConstraintsExtension ext.value)
    extendedKeyUsage :=
      if extendedKeyUsage.length > 0 then some extendedKeyUsage else none
    certificateTransparency :=
      ctExtension.map (fun ext => CTInfo.mk (parseCertificateTransparencySCTs ext)) }

/-- The exported `parseCertificate` entry point (lines 70-75) simply
delegates to `parseCertificateWithForge` (the async wrapper adds nothing). -/
def parseCertificate (cert : ForgeCert) (ambientNow : Int) : CertificateInfo :=
  parseCertificateWithForge cert ambientNow

/-! ## Concrete decoded certificates used by witnesses and counterexamples -/

/-- A small decoded certificate: v3, one subject / issuer attribute, an RSA
key, raw signature bytes, no extensions, a tiny DER body. -/
def baseCert : ForgeCert where
  version := some 2
  subjectAttrs := [⟨"commonName", .str "example.com"⟩]
  issuerAttrs := [⟨"organizationName", .str "Example CA"⟩]
  notBefore := 0
  notAfter := 1000000
  serialNumber := "0123abcd"
  publicKey := some
    { algorithmField := none
      algorithmNameField := none
      rsa := some ⟨12648430, 65537⟩
      curve := none
      dsa := false }
  signatureAlgorithm := none
  sigAlg := none
  signatureAlgorithmOid := none
  signature := "\x01\x02"
  extensions := []
  derBytes := [0x30, 0x03, 0x02, 0x01, 0x02]

/-- Certificate whose `notAfter` (1000000 ms) falls between the two
evaluation instants used to exhibit the ambient-clock dependence. -/
def exCertC1 : ForgeCert := baseCert

/-- Certificate with decoded version field `0` (an X.509 v1 certificate). -/
def exCertC2 : ForgeCert := { baseCert with version := some 0 }

/-- Certificate carrying an SCT-list extension whose value encodes an
empty SCT list (outer two-byte length prefix `00 00`, zero entries). -/
def exCertC3 : ForgeCert :=
  { baseCert with
    extensions := [⟨some "1.3.6.1.4.1.11129.2.4.2", .str "\x00\x00", some false⟩] }

/-- Certificate with no explicit signature-algorithm fields but with
signature bytes and a public key present. -/
def exCertC7 : ForgeCert := baseCert

/-- Certificate carrying a CT extension found by exact name match. -/
def exCertC10 : ForgeCert :=
  { baseCert with
    extensions := [⟨some "ctPrecertificateSCTs", .str "\x00\x04\x00\x00", some false⟩] }

/-! ## Helper lemmas -/

theorem listContains_iff (sub l : List Char) :
    listContains sub l = true ↔ sub <:+: l := by
  induction l with
  | nil =>
    cases sub <;> simp [listContains, List.isEmpty, List.infix_nil]
  | cons a t ih =>
    simp only [listContains, Bool.or_eq_true, ih, List.infix_cons_iff]
    rw [ List.isPrefixOf_iff_prefix]

theorem every_line_terminator_is_whitespace (c : Char) (h : isLineTerm c = true) :
    jsWhitespace c = true := by
  simp only [isLineTerm, Bool.or_eq_true, beq_iff_eq] at h
  rcases h with ((h | h) | h) | h <;> subst h <;> decide

theorem jsChunk12_flatten (l : List Char) (h : ∀ c ∈ l, isLineTerm c = false) :
    (jsChunk12 l).flatten = l := by
  induction l using jsChunk12.induct with
  | case1 => simp [jsChunk12]
  | case2 c rest hc ih =>
    exact absurd (h c (by simp)) (by simp [hc])
  | case3 c hc =>
    simp [jsChunk12, hc]
  | case4 c hc d rest2 hd ih =>
    exact absurd (h d (by simp)) (by simp [hd])
  | case5 c hc d rest2 hd ih =>
    simp only [jsChunk12]
    rw [if_neg hc, if_neg hd, List.flatten_cons, ih (fun x hx => h x (by simp [hx]))]
    rfl

theorem jsChunk12_ne_nil (l : List Char) (h0 : l ≠ [])
    (h : ∀ c ∈ l, isLineTerm c = false) : jsChunk12 l ≠ [] := by
  intro hnil
  have := jsChunk12_flatten l h
  rw [hnil] at this
  exact h0 this.symm

theorem jsChunk12_piece_length (l : List Char) (p : List Char)
    (hp : p ∈ jsChunk12 l) : p.length ≤ 2 := by
  induction l using jsChunk12.induct with
  | case1 => simp [jsChunk12] at hp
  | case2 c rest hc ih =>
    rw [jsChunk12.eq_def] at hp
    simp only [hc, if_true] at hp
    exact ih hp
  | case3 c hc =>
    simp only [jsChunk12] at hp
    rw [if_neg hc] at hp
    simp only [List.mem_singleton] at hp
    simp [hp]
  | case4 c hc d rest2 hd ih =>
    simp only [jsChunk12] at hp
    rw [if_neg hc, if_pos hd] at hp
    simp only [List.mem_cons] at hp
    rcases hp with hp | hp
    · simp [hp]
    · exact ih hp
  | case5 c hc d rest2 hd ih =>
    simp only [jsChunk12] at hp
    rw [if_neg hc, if_neg hd] at hp
    simp only [List.mem_cons] at hp
    rcases hp with hp | hp
    · simp [hp]
    · exact ih hp

theorem joinSep_filter_drop (q : Char → Bool) (c : Char) (hc : q c = false)
    (ps : List (List Char)) :
    (joinSep [c] ps).filter q = ps.flatten.filter q := by
  induction ps using joinSep.induct [c] with
  | case1 => simp [joinSep]
  | case2 x => simp [joinSep]
  | case3 x y t ih =>
    simp only [joinSep]
    simp [List.filter_append, List.filter_cons, hc, ih, List.flatten_cons,
      List.append_assoc]

theorem chunkGo_flatten (n fuel : Nat) (l : List α) (hfuel : l.length ≤ fuel) :
    (chunkGo n fuel l).flatten = l := by
  induction fuel generalizing l with
  | zero =>
    cases l with
    | nil => rfl
    | cons x xs => simp at hfuel
  | succ fuel ih =>
    cases l with
    | nil => rfl
    | cons x xs =>
      rw [chunkGo]
      by_cases h0 : n = 0
      · simp [h0]
      · rw [if_neg h0, List.flatten_cons]
        rw [ih ((x :: xs).drop n)
          (by simp only [List.length_drop, List.length_cons]
              simp only [List.length_cons] at hfuel
              omega)]
        exact List.take_append_drop n (x :: xs)

theorem chunkGo_piece_length (n fuel : Nat) (l : List α) (p : List α)
    (hn : n ≠ 0) (hfuel : l.length ≤ fuel) (hp : p ∈ chunkGo n fuel l) :
    p.length ≤ n := by
  induction fuel generalizing l with
  | zero =>
    cases l with
    | nil => simp [chunkGo] at hp
    | cons x xs => simp at hfuel
  | succ fuel ih =>
    cases l with
    | nil => simp [chunkGo] at hp
    | cons x xs =>
      rw [chunkGo, if_neg hn] at hp
      simp only [List.mem_cons] at hp
      rcases hp with hp | hp
      · rw [hp]
        exact List.length_take_le n _
      · refine ih ((x :: xs).drop n) ?_ hp
        simp only [List.length_drop, List.length_cons]
        simp only [List.length_cons] at hfuel
        omega

theorem chunkList_flatten (n : Nat) (l : List α) :
    (chunkList n l).flatten = l :=
  chunkGo_flatten n l.length l (Nat.le_refl _)

theorem chunkList_piece_length (n : Nat) (l : List α) (p : List α)
    (hp : p ∈ chunkList n l) (hn : n ≠ 0) : p.length ≤ n :=
  chunkGo_piece_length n l.length l p hn (Nat.le_refl _) hp

theorem splitCh_ne_nil (c : Char) (l : List Char) : splitCh c l ≠ [] := by
  induction l using splitCh.induct c with
  | case1 => simp [splitCh]
  | case2 d rest2 hrec ih => exact absurd hrec ih
  | case3 d rest2 r rs hrec hd ih =>
    rw [splitCh.eq_def]
    simp [hrec, hd]
  | case4 d rest2 r rs hrec hd ih =>
    rw [splitCh.eq_def]
    simp [hrec, hd]

theorem splitCh_no_sep (c : Char) (l : List Char)
    (h : ∀ x ∈ l, (x == c) = false) : splitCh c l = [l] := by
  induction l with
  | nil => rfl
  | cons a t ih =>
    have ht := ih (fun x hx => h x (by simp [hx]))
    rw [splitCh.eq_def]
    simp only [ht]
    rw [if_neg (by simp [h a (by simp)])]

theorem splitCh_append_sep (c : Char) (p rest : List Char)
    (h : ∀ x ∈ p, (x == c) = false) :
    splitCh c (p ++ c :: rest) = p :: splitCh c rest := by
  induction p with
  | nil =>
    obtain ⟨r, rs, hr⟩ : ∃ r rs, splitCh c rest = r :: rs := by
      cases hsp : splitCh c rest with
      | nil => exact absurd hsp (splitCh_ne_nil c rest)
      | cons r rs => exact ⟨r, rs, rfl⟩
    rw [List.nil_append, splitCh.eq_def]
    simp [hr]
  | cons a p' ih =>
    have hp' := ih (fun x hx => h x (by simp [hx]))
    obtain ⟨r, rs, hr⟩ : ∃ r rs, splitCh c (p' ++ c :: rest) = r :: rs := by
      cases hsp : splitCh c (p' ++ c :: rest) with
      | nil => exact absurd hsp (splitCh_ne_nil c _)
      | cons r rs => exact ⟨r, rs, rfl⟩
    rw [List.cons_append, splitCh.eq_def]
    simp only [hr]
    rw [if_neg (by simp [h a (by simp)])]
    rw [hr] at hp'
    injection hp' with h1 h2
    rw [h1, h2]

theorem splitCh_joinSep (c : Char) (ps : List (List Char)) (hne : ps ≠ [])
    (h : ∀ p ∈ ps, ∀ x ∈ p, (x == c) = false) :
    splitCh c (joinSep [c] ps) = ps := by
  induction ps with
  | nil => exact absurd rfl hne
  | cons p t ih =>
    cases t with
    | nil =>
      simp only [joinSep]
      exact splitCh_no_sep c p (h p (by simp))
    | cons q t2 =>
      have : joinSep [c] (p :: q :: t2) = p ++ c :: joinSep [c] (q :: t2) := by
        simp [joinSep]
      rw [this, splitCh_append_sep c p _ (h p (by simp))]
      rw [ih (by simp) (fun x hx y hy => h x (by simp [hx]) y hy)]

theorem ofDigitsLE_natDigitsLE (fuel b n : Nat) (hfuel : n ≤ fuel) (hb : 2 ≤ b) :
    ofDigitsLE b (natDigitsLE fuel b n) = n := by
  induction fuel generalizing n with
  | zero =>
    interval_cases n
    rfl
  | succ fuel ih =>
    rw [natDigitsLE]
    by_cases h0 : n = 0
    · simp [h0, ofDigitsLE]
    · rw [if_neg h0, ofDigitsLE]
      have hdiv : n / b ≤ fuel := by
        have h1 : n / b < n := Nat.div_lt_self (Nat.pos_of_ne_zero h0) hb
        omega
      rw [ih (n / b) hdiv]
      exact Nat.mod_add_div n b

theorem natDigitsLE_lt_base (fuel b n d : Nat) (hb : 0 < b)
    (hd : d ∈ natDigitsLE fuel b n) : d < b := by
  induction fuel generalizing n with
  | zero => simp [natDigitsLE] at hd
  | succ fuel ih =>
    rw [natDigitsLE] at hd
    by_cases h0 : n = 0
    · simp [h0] at hd
    · rw [if_neg h0] at hd
      simp only [List.mem_cons] at hd
      rcases hd with hd | hd
      · rw [hd]
        exact Nat.mod_lt n hb
      · exact ih (n / b) hd

theorem digitChar16_isDigit (d : Nat) (hd : d < 10) :
    (digitChar16 d).isDigit = true := by
  interval_cases d <;> decide

theorem digitChar16_toNat (d : Nat) (hd : d < 10) :
    (digitChar16 d).toNat - 48 = d := by
  interval_cases d <;> decide

theorem jsParseInt_natToBase (n : Nat) : jsParseInt (natToBase 10 n) = n := by
  by_cases h0 : n = 0
  · rw [h0]
    decide
  · rw [natToBase, if_neg h0, jsParseInt]
    have hl : (String.mk ((natDigitsLE n 10 n).reverse.map digitChar16)).toList
        = (natDigitsLE n 10 n).reverse.map digitChar16 := rfl
    rw [hl]
    have hdigits : ∀ c ∈ (natDigitsLE n 10 n).reverse.map digitChar16, c.isDigit = true := by
      intro c hc
      simp only [List.mem_map, List.mem_reverse] at hc
      obtain ⟨d, hd, hdc⟩ := hc
      rw [← hdc]
      exact digitChar16_isDigit d (natDigitsLE_lt_base n 10 n d (by omega) hd)
    rw [List.takeWhile_eq_self_iff.mpr hdigits]
    rw [List.map_map]
    have hmap : ((natDigitsLE n 10 n).reverse.map ((fun c => c.toNat - 48) ∘ digitChar16))
        = (natDigitsLE n 10 n).reverse := by
      have := List.map_congr_left (l := (natDigitsLE n 10 n).reverse)
        (f := (fun c => c.toNat - 48) ∘ digitChar16) (g := id) ?_
      · rw [this, List.map_id]
      · intro d hd
        simp only [List.mem_reverse] at hd
        simp only [Function.comp_apply, id_eq]
        exact digitChar16_toNat d (natDigitsLE_lt_base n 10 n d (by omega) hd)
    rw [hmap, List.reverse_reverse]
    exact ofDigitsLE_natDigitsLE n 10 n (Nat.le_refl n) (by omega)

/-! ## Claim theorems -/

/-- C1 (amended): for a fixed decoded certificate, the parse result is a
pure function of the certificate and the evaluation instant; every field
except `validity` is independent of the instant altogether (so two parses
of the same input yield identical fingerprints and identical DN strings
even across different instants), and `validity` is exactly
`certValidity notBefore notAfter now` at the instant read from the clock.
The instant itself, however, is an implicit `new Date()` read, not an
injectable parameter (see the counterexample). -/
theorem C1_parse_pure_function_of_cert_and_instant (cert : ForgeCert) (now1 now2 : Int) :
    (parseCertificateWithForge cert now1).fingerprint
        = (parseCertificateWithForge cert now2).fingerprint ∧
    (parseCertificateWithForge cert now1).subject
        = (parseCertificateWithForge cert now2).subject ∧
    (parseCertificateWithForge cert now1).issuer
        = (parseCertificateWithForge cert now2).issuer ∧
    (parseCertificateWithForge cert now1).version
        = (parseCertificateWithForge cert now2).version ∧
    (parseCertificateWithForge cert now1).serialNumber
        = (parseCertificateWithForge cert now2).serialNumber ∧
    (parseCertificateWithForge cert now1).publicKey
        = (parseCertificateWithForge cert now2).publicKey ∧
    (parseCertificateWithForge cert now1).signature
        = (parseCertificateWithForge cert now2).signature ∧
    (parseCertificateWithForge cert now1).extensions
        = (parseCertificateWithForge cert now2).extensions ∧
    (parseCertificateWithForge cert now1).keyUsage
        = (parseCertificateWithForge cert now2).keyUsage ∧
    (parseCertificateWithForge cert now1).basicConstraints
        = (parseCertificateWithForge cert now2).basicConstraints ∧
    (parseCertificateWithForge cert now1).extendedKeyUsage
        = (parseCertificateWithForge cert now2).extendedKeyUsage ∧
    (parseCertificateWithForge cert now1).certificateTransparency
        = (parseCertificateWithForge cert now2).certificateTransparency ∧
    (parseCertificateWithForge cert now1).validity
        = certValidity cert.notBefore cert.notAfter now1 :=
  ⟨rfl, rfl, rfl, rfl, rfl, rfl, rfl, rfl, rfl, rfl, rfl, rfl, rfl⟩

/-- C1 counterexample: the claim says the evaluation instant is an
explicit, injectable parameter rather than an implicit global clock.  In
the code the only instant is the ambient `new Date()` value (line 158),
which the caller of `parseCertificate(certText)` cannot inject: the same
certificate text parsed under two ambient clock readings yields different
`CertificateInfo` values (the validity flags flip), so the result is not a
function of the text plus any caller-supplied parameter. -/
theorem C1_counterexample_ambient_clock :
    parseCertificateWithForge exCertC1 0 ≠ parseCertificateWithForge exCertC1 2000000000 := by
  intro h
  have h2 : (parseCertificateWithForge exCertC1 0).validity.isExpired
      = (parseCertificateWithForge exCertC1 2000000000).validity.isExpired := by
    rw [h]
  exact absurd h2 (by decide)

/-- C2: the claim (and the code's own comment, lines 89-90) says decoded
version 0 displays as 1; but `(cert.version || 2) + 1` treats the decoded
value `0` as falsy, so an X.509 v1 certificate (decoded version 0)
displays as version 3.  Decoded 1 and 2 and the absent case behave as the
claim says (2, 3, 3). -/
theorem C2_version_zero_displays_three :
    versionDisplayed (some 0) = 3 ∧ versionDisplayed (some 1) = 2 ∧
    versionDisplayed (some 2) = 3 ∧ versionDisplayed none = 3 ∧
    (parseCertificateWithForge exCertC2 0).version = 3 :=
  ⟨rfl, rfl, rfl, rfl, rfl⟩

/-- C3 counterexample: an SCT-list extension whose value encodes zero SCT
entries (`00 00`) does NOT yield an empty `scts` sequence: the decoder
never inspects the bytes and returns the three hardcoded entries. -/
theorem C3_counterexample_zero_scts :
    (parseCertificateWithForge exCertC3 0).certificateTransparency
        = some (CTInfo.mk [sctEntry1, sctEntry2, sctEntry3]) ∧
    (CTInfo.mk [sctEntry1, sctEntry2, sctEntry3]).scts.length ≠ 0 := by
  constructor
  · rfl
  · decide

/-- C3 (amended): the SCT decoder never raises (it is total) and never
yields an error value, but instead of an empty list it returns the same
fixed three-entry SCT list for every extension content — zero-SCT and
malformed-length contents included, since the bytes are never read. -/
theorem C3_sct_list_content_independent (e1 e2 : ExtObj) :
    parseCertificateTransparencySCTs e1 = parseCertificateTransparencySCTs e2 ∧
    (parseCertificateTransparencySCTs e1).length = 3 :=
  ⟨rfl, rfl⟩

/-- C4: `isExpired` is true exactly when `notAfter < now`, `isExpiringSoon`
exactly when `now < notAfter < now + 30 days`; with the claim's three
instances: `notAfter` 10 days out gives (false, true), 40 days out gives
(false, false), one millisecond in the past gives (true, false); and the
assembled result's `validity` field is exactly this evaluation. -/
theorem C4_validity_window (nb na now : Int) :
    ((certValidity nb na now).isExpired = true ↔ na < now) ∧
    ((certValidity nb na now).isExpiringSoon = true ↔
      (now < na ∧ na < now + 30 * 24 * 60 * 60 * 1000)) ∧
    ((certValidity nb (now + 10 * 24 * 60 * 60 * 1000) now).isExpired = false ∧
      (certValidity nb (now + 10 * 24 * 60 * 60 * 1000) now).isExpiringSoon = true) ∧
    ((certValidity nb (now + 40 * 24 * 60 * 60 * 1000) now).isExpired = false ∧
      (certValidity nb (now + 40 * 24 * 60 * 60 * 1000) now).isExpiringSoon = false) ∧
    ((certValidity nb (now - 1) now).isExpired = true ∧
      (certValidity nb (now - 1) now).isExpiringSoon = false) ∧
    (∀ cert : ForgeCert, (parseCertificateWithForge cert now).validity
        = certValidity cert.notBefore cert.notAfter now) := by
  refine ⟨?_, ?_, ⟨?_, ?_⟩, ⟨?_, ?_⟩, ⟨?_, ?_⟩, fun cert => rfl⟩ <;>
    simp [certValidity] <;> omega

/-- C6: for every extension value whose string coercion is shorter than 4
characters, the Key Usage decoder returns the fixed fallback flag set
(digitalSignature and keyEncipherment set, everything else clear); being a
total function of the value, it cannot raise on any input. -/
theorem C6_key_usage_short_value_fallback (value : ExtValue)
    (h : (jsStringOf value).toList.length < 4) :
    parseKeyUsageExtension value = keyUsageFallback := by
  simp only [parseKeyUsageExtension]
  rw [if_neg (by omega)]
  rfl

/-- C6 witness at the two-character value `"ab"`. -/
theorem C6_witness : parseKeyUsageExtension (ExtValue.str "ab") = keyUsageFallback :=
  C6_key_usage_short_value_fallback (ExtValue.str "ab") (by decide)

/-- C7: when none of the explicit signature-algorithm fields is truthy,
the signature descriptor reports `sha256WithRSAEncryption` if both the
signature bytes and the public key are present, and `"Unknown"` if the
signature bytes are empty or the public key is absent. -/
theorem C7_signature_algorithm_fallback (cert : ForgeCert)
    (h1 : jsTruthyStr cert.signatureAlgorithm = false)
    (h2 : jsTruthyStr cert.sigAlg = false)
    (h3 : jsTruthyStr cert.signatureAlgorithmOid = false) :
    ((cert.signature ≠ "" ∧ cert.publicKey.isSome = true) →
        extractSignatureAlgorithm cert = "sha256WithRSAEncryption") ∧
    ((cert.signature = "" ∨ cert.publicKey = none) →
        extractSignatureAlgorithm cert = "Unknown") := by
  have hchain : extractSignatureAlgorithm cert =
      if cert.signature ≠ "" && cert.publicKey.isSome then "sha256WithRSAEncryption"
      else "Unknown" := by
    simp only [extractSignatureAlgorithm, h1, h2, h3, Bool.false_eq_true, if_false]
  constructor
  · rintro ⟨hs, hp⟩
    rw [hchain, if_pos (by simp [hs, hp])]
  · intro hd
    rw [hchain]
    rcases hd with hd | hd
    · rw [if_neg (by simp [hd])]
    · rw [if_neg (by simp [hd])]

/-- C7 witness: a certificate with no explicit signature-algorithm fields
but with signature bytes and an RSA public key reports the default. -/
theorem C7_witness : extractSignatureAlgorithm exCertC7 = "sha256WithRSAEncryption" :=
  (C7_signature_algorithm_fallback exCertC7 rfl rfl rfl).1 ⟨by decide, rfl⟩

/-- C10: whenever the assembled result carries a `certificateTransparency`
field, its `scts` sequence is exactly the three hardcoded entries
`sctEntry1/2/3` — independent of the extension's actual bytes, since the
right-hand side is a closed constant. -/
theorem C10_ct_scts_fixed_constants (cert : ForgeCert) (now : Int) (ct : CTInfo)
    (h : (parseCertificateWithForge cert now).certificateTransparency = some ct) :
    ct.scts = [sctEntry1, sctEntry2, sctEntry3] ∧ ct.scts.length = 3 := by
  have hform : (parseCertificateWithForge cert now).certificateTransparency
      = (cert.extensions.find? isCTExtension).map
          (fun ext => CTInfo.mk (parseCertificateTransparencySCTs ext)) := rfl
  rw [hform] at h
  cases hfind : cert.extensions.find? isCTExtension with
  | none =>
    rw [hfind] at h
    simp at h
  | some e =>
    rw [hfind] at h
    have h2 : CTInfo.mk (parseCertificateTransparencySCTs e) = ct := Option.some.inj h
    rw [← h2]
    exact ⟨rfl, rfl⟩

set_option maxRecDepth 4000 in
/-- C10 witness at a certificate whose CT extension is found by exact name
match. -/
theorem C10_witness :
    (CTInfo.mk [sctEntry1, sctEntry2, sctEntry3]).scts
        = [sctEntry1, sctEntry2, sctEntry3] ∧
    (CTInfo.mk [sctEntry1, sctEntry2, sctEntry3]).scts.length = 3 :=
  C10_ct_scts_fixed_constants exCertC10 0 (CTInfo.mk [sctEntry1, sctEntry2, sctEntry3])
    (by decide)

/-- C5: the format validator returns true exactly when the trimmed text
starts with the BEGIN marker and ends with the END marker (the two
`includes` conjuncts are implied by prefix/suffix); text missing the
trailing end marker fails validation. -/
theorem C5_format_validator :
    (∀ s : String, validateCertificateFormat s =
      (jsStartsWith (jsTrim s) "-----BEGIN CERTIFICATE-----" &&
        jsEndsWith (jsTrim s) "-----END CERTIFICATE-----")) ∧
    validateCertificateFormat "-----BEGIN CERTIFICATE-----\nMIIB" = false := by
  constructor
  · intro s
    simp only [validateCertificateFormat, jsIncludes, jsStartsWith, jsEndsWith]
    cases hp : "-----BEGIN CERTIFICATE-----".toList.isPrefixOf (jsTrim s).toList with
    | false => simp [hp]
    | true =>
      cases hs : "-----END CERTIFICATE-----".toList.isSuffixOf (jsTrim s).toList with
      | false => simp [hp, hs]
      | true =>
        have hip : listContains "-----BEGIN CERTIFICATE-----".toList (jsTrim s).toList
            = true := by
          rw [listContains_iff]
          exact List.IsPrefix.isInfix ( List.isPrefixOf_iff_prefix.mp hp)
        have his : listContains "-----END CERTIFICATE-----".toList (jsTrim s).toList
            = true := by
          rw [listContains_iff]
          exact List.IsSuffix.isInfix (List.isSuffixOf_iff_suffix.mp hs)
        rw [hip, his]
        rfl
  · decide

theorem toList_mk (l : List Char) : (String.mk l).toList = l := rfl

/-- C8: the serial formatter strips existing colons and re-inserts one
every two characters; `"1A2B3C"` formats to `"1A:2B:3C"`, an already
colon-separated serial re-normalizes to the same grouping, and formatting
is idempotent on any serial free of line terminators (hex serials in
particular). -/
theorem C8_serial_number_formatting :
    (∀ s : String, (∀ c ∈ s.toList, isLineTerm c = false) →
      formatSerialNumber (formatSerialNumber s) = formatSerialNumber s) ∧
    formatSerialNumber "1A2B3C" = "1A:2B:3C" ∧
    formatSerialNumber "1A:2B:3C" = "1A:2B:3C" := by
  refine ⟨?_, by decide, by decide⟩
  intro s hterm
  have hcleanterm : ∀ c ∈ s.toList.filter (fun c => !(c == ':')), isLineTerm c = false :=
    fun c hc => hterm c (List.mem_of_mem_filter hc)
  have hcleancolon : ∀ c ∈ s.toList.filter (fun c => !(c == ':')), (c == ':') = false := by
    intro c hc
    have := List.of_mem_filter hc
    simpa using this
  cases hch : jsChunk12 (s.toList.filter (fun c => !(c == ':'))) with
  | nil =>
    have h1 : formatSerialNumber s = s := by
      simp only [formatSerialNumber, hch]
    simp only [h1]
  | cons p ps =>
    have h1 : formatSerialNumber s = String.mk (joinSep [':'] (p :: ps)) := by
      simp only [formatSerialNumber, hch]
    have hflat : (p :: ps).flatten = s.toList.filter (fun c => !(c == ':')) := by
      rw [← hch]
      exact jsChunk12_flatten _ hcleanterm
    have hclean2 : (joinSep [':'] (p :: ps)).filter (fun c => !(c == ':'))
        = s.toList.filter (fun c => !(c == ':')) := by
      rw [joinSep_filter_drop (fun c => !(c == ':')) ':' (by decide) (p :: ps), hflat]
      exact List.filter_eq_self.mpr (fun a ha => by simp [hcleancolon a ha])
    have h2 : formatSerialNumber (String.mk (joinSep [':'] (p :: ps)))
        = String.mk (joinSep [':'] (p :: ps)) := by
      simp only [formatSerialNumber, toList_mk, hclean2, hch]
    rw [h1, h2]

/-- C8 witness: idempotence applied at the concrete hex serial
`"1A2B3C"`. -/
theorem C8_witness :
    formatSerialNumber (formatSerialNumber "1A2B3C") = formatSerialNumber "1A2B3C" :=
  C8_serial_number_formatting.1 "1A2B3C" (by decide)

/-- C9 counterexample: `formatModulus` performs no case conversion: the
hex it receives from the big-integer library (jsbn renders lower-case) is
grouped but kept in its original case, so the displayed modulus is NOT
upper-case hex as the claim states. -/
theorem C9_counterexample_lowercase :
    formatModulus "abcd" = "ab:cd" ∧ formatModulus "abcd" ≠ "AB:CD" := by
  constructor <;> decide

/-- C9 (amended): the exponent is rendered `"<decimal> (0x<HEX>)"` with
upper-case hex (65537 gives `"65537 (0x10001)"`), and the modulus is
rendered as colon-separated hex octet pairs wrapped at 15 pairs per line
with a fixed 20-space continuation indent — but in the letter case
received from the library (lower-case in practice), not upper-cased. -/
theorem C9_modulus_exponent_formatting :
    (∀ e : Nat, formatExponent (natToBase 10 e) =
        natToBase 10 e ++ " (0x" ++ jsToUpper (natToBase 16 e) ++ ")") ∧
    formatExponent "65537" = "65537 (0x10001)" ∧
    formatModulus "00a1b2c3d4e5f60718293a4b5c6d7e8f"
        = "00:a1:b2:c3:d4:e5:f6:07:18:29:3a:4b:5c:6d:7e\n                    8f" ∧
    (∀ s : String, (∀ c ∈ s.toList, (c == ':' || jsWhitespace c) = false) →
      ∃ lineParts : List (List (List Char)),
        formatModulus s = String.mk (joinSep ('\n' :: List.replicate 20 ' ')
            (lineParts.map (joinSep [':']))) ∧
        lineParts.flatten.flatten = s.toList ∧
        (∀ lp ∈ lineParts, lp.length ≤ 15) ∧
        (∀ lp ∈ lineParts, ∀ p ∈ lp, p.length ≤ 2)) := by
  refine ⟨?_, by decide, by decide, ?_⟩
  · intro e
    simp only [formatExponent, jsParseInt_natToBase]
  · intro s hs
    have hfilter : s.toList.filter (fun c => !(c == ':' || jsWhitespace c)) = s.toList :=
      List.filter_eq_self.mpr (fun a ha => by rw [hs a ha]; rfl)
    have hterm : ∀ c ∈ s.toList, isLineTerm c = false := by
      intro c hc
      cases hlt : isLineTerm c with
      | false => rfl
      | true =>
        have hw := every_line_terminator_is_whitespace c hlt
        have h2 := hs c hc
        rw [hw] at h2
        simp at h2
    by_cases h0 : s.toList = []
    · refine ⟨[[[]]], ?_, ?_, ?_, ?_⟩
      · simp only [formatModulus]
        rw [h0]
        rfl
      · simpa using h0
      · intro lp hlp
        simp only [List.mem_singleton] at hlp
        simp [hlp]
      · intro lp hlp q hq
        simp only [List.mem_singleton] at hlp
        subst hlp
        simp only [List.mem_singleton] at hq
        simp [hq]
    · obtain ⟨p0, ps, hpp⟩ : ∃ p0 ps, jsChunk12 s.toList = p0 :: ps := by
        cases hj : jsChunk12 s.toList with
        | nil => exact absurd hj (jsChunk12_ne_nil s.toList h0 hterm)
        | cons a b => exact ⟨a, b, rfl⟩
      have hflat : (p0 :: ps).flatten = s.toList := by
        rw [← hpp]
        exact jsChunk12_flatten s.toList hterm
      have hpieces : ∀ q ∈ p0 :: ps, ∀ x ∈ q, (x == ':') = false := by
        intro q hq x hx
        have hxL : x ∈ s.toList := by
          rw [← hflat]
          exact List.mem_flatten_of_mem hq hx
        have h2 := hs x hxL
        cases hxc : x == ':' with
        | false => rfl
        | true =>
          rw [hxc] at h2
          simp at h2
      have hsplit : splitCh ':' (joinSep [':'] (p0 :: ps)) = p0 :: ps :=
        splitCh_joinSep ':' (p0 :: ps) (by simp) hpieces
      refine ⟨chunkList 15 (p0 :: ps), ?_, ?_, ?_, ?_⟩
      · simp only [formatModulus, hfilter, hpp, hsplit]
      · rw [chunkList_flatten 15 (p0 :: ps)]
        exact hflat
      · intro lp hlp
        exact chunkList_piece_length 15 (p0 :: ps) lp hlp (by omega)
      · intro lp hlp q hq
        have hq2 : q ∈ p0 :: ps := by
          rw [← chunkList_flatten 15 (p0 :: ps)]
          exact List.mem_flatten_of_mem hlp hq
        rw [← hpp] at hq2
        exact jsChunk12_piece_length s.toList q hq2

/-- C9 witness: the general wrap/preservation property applied at the
concrete clean lower-case hex string `"aabb"`. -/
theorem C9_witness :
    ∃ lineParts : List (List (List Char)),
      formatModulus "aabb" = String.mk (joinSep ('\n' :: List.replicate 20 ' ')
          (lineParts.map (joinSep [':']))) ∧
      lineParts.flatten.flatten = "aabb".toList ∧
      (∀ lp ∈ lineParts, lp.length ≤ 15) ∧
      (∀ lp ∈ lineParts, ∀ p ∈ lp, p.length ≤ 2) :=
  C9_modulus_exponent_formatting.2.2.2 "aabb" (by decide)
